import Mathlib

/-!
Verification of the `unique_handle` resource-wrapper template from this
repository (`SmartClasses.h` and `CppSqlite/unique_handle.h`).

The embedding is a shallow one: the single data member `m_value` becomes a
one-field structure, the compile-time `Traits` policy becomes a record
carrying the sentinel ("invalid") value, and every call the wrapper makes to
the traits-supplied release operation (`Traits::close` / `Traits::Close`) is
recorded, in order, in an explicit trace list returned alongside the new
state.  Mutating member functions are modelled as state transformers
`state → result × state × trace`; `const` member functions as plain
projections.  A small operation language and a step function over a list of
optional handles model programs that manipulate several handle objects
(indices play the role of object identity, so the `this != &other`
self-assignment test becomes an index comparison, and a destroyed object
becomes `none`).
-/

set_option autoImplicit false

namespace SmartClassesExamples

/-- The `Traits` template parameter of `unique_handle` in `SmartClasses.h`:
it supplies the pointer type (here the type parameter `α`) and the sentinel
returned by `Traits::invalid()`.  The `Traits::close` operation is modelled
by the traces produced by the handle operations. -/
structure Traits (α : Type) where
  invalid : α
deriving DecidableEq

/-- The state of a `SmartClassesExamples::unique_handle<Traits>` object:
its single data member `m_value`. -/
structure unique_handle (α : Type) where
  m_value : α
deriving DecidableEq

variable {α : Type}

/-- The C++ `explicit operator bool()`: `m_value != Traits::invalid()`. -/
def operator_bool [DecidableEq α] (T : Traits α) (h : unique_handle α) : Bool :=
  decide (h.m_value ≠ T.invalid)

/-- The C++ `get()` member: returns `m_value`; `const`, so no state change. -/
def get (h : unique_handle α) : α :=
  h.m_value

/-- The private C++ helper `close()`: `if (*this) Traits::close(m_value)`.
The result is the trace of arguments passed to `Traits::close`. -/
def close [DecidableEq α] (T : Traits α) (h : unique_handle α) : List α :=
  if operator_bool T h then [h.m_value] else []

/-- The explicit constructor `unique_handle(pointer value = Traits::invalid())`:
stores `value`; calls `Traits::close` zero times (empty trace). -/
def mk (value : α) : unique_handle α × List α :=
  (⟨value⟩, [])

/-- The default-argument form of the constructor: `unique_handle()` stores
`Traits::invalid()`. -/
def mkDefault (T : Traits α) : unique_handle α × List α :=
  mk T.invalid

/-- The destructor `~unique_handle()`: calls `close()`.  The result is the
trace of `Traits::close` calls it makes. -/
def destruct [DecidableEq α] (T : Traits α) (h : unique_handle α) : List α :=
  close T h

/-- The C++ `release()`: saves `m_value`, overwrites it with
`Traits::invalid()`, and returns the saved value.  Result, new state, and
the (empty) trace of `Traits::close` calls. -/
def release (T : Traits α) (h : unique_handle α) : α × unique_handle α × List α :=
  (h.m_value, ⟨T.invalid⟩, [])

/-- The C++ `reset(pointer value = Traits::invalid())`: if the stored value
differs from `value`, call `close()` and store `value`; then return
`static_cast<bool>(*this)` on the updated object.  Result, new state,
trace. -/
def reset [DecidableEq α] (T : Traits α) (h : unique_handle α) (value : α) :
    Bool × unique_handle α × List α :=
  if h.m_value ≠ value then
    (operator_bool T ⟨value⟩, ⟨value⟩, close T h)
  else
    (operator_bool T h, h, [])

/-- The move constructor `unique_handle(unique_handle&& other)`: initializes
`m_value` with `other.release()`.  Returns the new object, the moved-from
object, and the trace. -/
def moveCtor (T : Traits α) (other : unique_handle α) :
    unique_handle α × unique_handle α × List α :=
  let r := release T other
  (⟨r.1⟩, r.2.1, r.2.2)

/-- The body of the move assignment `operator=(unique_handle&& other)` in the
case `this != &other`: `reset(other.release())`.  Returns the assigned-to
object, the moved-from object, and the trace (release's calls followed by
reset's). -/
def moveAssignD [DecidableEq α] (T : Traits α) (dst src : unique_handle α) :
    unique_handle α × unique_handle α × List α :=
  let r := release T src
  let s := reset T dst r.1
  (s.2.1, r.2.1, r.2.2 ++ s.2.2)

/-- The member `swap(unique_handle& other)`: `std::swap(m_value, other.m_value)`;
no `Traits::close` call. -/
def swapH (a b : unique_handle α) : unique_handle α × unique_handle α × List α :=
  (⟨b.m_value⟩, ⟨a.m_value⟩, [])

/-- The non-member `swap(left, right)`: forwards to `left.swap(right)`. -/
def swapNM (a b : unique_handle α) : unique_handle α × unique_handle α × List α :=
  swapH a b

/-- Operations a program can perform on a collection of `unique_handle`
objects; `Nat` indices identify objects, so `this != &other` is an index
comparison. -/
inductive Op (α : Type) where
  | constructValue (v : α)
  | moveConstructOp (j : Nat)
  | moveAssignOp (i j : Nat)
  | resetOp (i : Nat) (v : α)
  | releaseOp (i : Nat)
  | swapOp (i j : Nat)
  | destroyOp (i : Nat)
deriving DecidableEq

/-- One step of a program over a collection of handle objects.  A slot holds
`some h` for a live object with state `h` and `none` for a destroyed (or
never-created) object; operations naming a dead or out-of-range slot do
nothing.  Returns the new collection and the trace of `Traits::close`
calls. -/
def step [DecidableEq α] (T : Traits α) (hs : List (Option (unique_handle α))) :
    Op α → List (Option (unique_handle α)) × List α
  | .constructValue v => (hs ++ [some (mk v).1], (mk v).2)
  | .moveConstructOp j =>
    match hs[j]? with
    | some (some hj) =>
      let r := moveCtor T hj
      (hs.set j (some r.2.1) ++ [some r.1], r.2.2)
    | _ => (hs, [])
  | .moveAssignOp i j =>
    if i = j then (hs, [])
    else
      match hs[i]?, hs[j]? with
      | some (some hi), some (some hj) =>
        let r := moveAssignD T hi hj
        ((hs.set j (some r.2.1)).set i (some r.1), r.2.2)
      | _, _ => (hs, [])
  | .resetOp i v =>
    match hs[i]? with
    | some (some hi) =>
      let r := reset T hi v
      (hs.set i (some r.2.1), r.2.2)
    | _ => (hs, [])
  | .releaseOp i =>
    match hs[i]? with
    | some (some hi) =>
      let r := release T hi
      (hs.set i (some r.2.1), r.2.2)
    | _ => (hs, [])
  | .swapOp i j =>
    if i = j then (hs, [])
    else
      match hs[i]?, hs[j]? with
      | some (some hi), some (some hj) =>
        let r := swapH hi hj
        ((hs.set i (some r.1)).set j (some r.2.1), r.2.2)
      | _, _ => (hs, [])
  | .destroyOp i =>
    match hs[i]? with
    | some (some hi) => (hs.set i none, destruct T hi)
    | _ => (hs, [])

/-- Runs a sequence of operations, accumulating the `Traits::close` trace. -/
def stepsTr [DecidableEq α] (T : Traits α) (hs : List (Option (unique_handle α))) :
    List (Op α) → List (Option (unique_handle α)) × List α
  | [] => (hs, [])
  | op :: ops =>
    let r := step T hs op
    let rest := stepsTr T r.1 ops
    (rest.1, r.2 ++ rest.2)

/-- Ownership uniqueness: no two distinct live handles hold the same
non-sentinel value. -/
def UniqOwn [DecidableEq α] (T : Traits α) (hs : List (Option (unique_handle α))) : Prop :=
  ∀ (i j : Nat) (a b : unique_handle α), i ≠ j →
    hs[i]? = some (some a) → hs[j]? = some (some b) →
    a.m_value ≠ T.invalid → a.m_value ≠ b.m_value

/-- Every live handle in the collection holds the sentinel. -/
def AllSentinel [DecidableEq α] (T : Traits α) (hs : List (Option (unique_handle α))) : Prop :=
  ∀ (i : Nat) (a : unique_handle α), hs[i]? = some (some a) → a.m_value = T.invalid

/-- The freshness side condition exactly as the claim states it: only
construct-with-value is required to use a fresh (or sentinel) identifier. -/
def FreshOrig [DecidableEq α] (T : Traits α) (hs : List (Option (unique_handle α))) :
    Op α → Prop
  | .constructValue v => v = T.invalid ∨
      ∀ (i : Nat) (a : unique_handle α), hs[i]? = some (some a) → a.m_value ≠ v
  | _ => True

/-- The amended freshness side condition: a non-sentinel value passed to
`reset` must also not be held by any other live handle. -/
def FreshAmended [DecidableEq α] (T : Traits α) (hs : List (Option (unique_handle α))) :
    Op α → Prop
  | .constructValue v => v = T.invalid ∨
      ∀ (i : Nat) (a : unique_handle α), hs[i]? = some (some a) → a.m_value ≠ v
  | .resetOp i v => v = T.invalid ∨
      ∀ (j : Nat) (a : unique_handle α), j ≠ i → hs[j]? = some (some a) → a.m_value ≠ v
  | _ => True

/-- `FreshOrig` holds at every step along a run. -/
def FreshAlongOrig [DecidableEq α] (T : Traits α) (hs : List (Option (unique_handle α))) :
    List (Op α) → Prop
  | [] => True
  | op :: ops => FreshOrig T hs op ∧ FreshAlongOrig T (step T hs op).1 ops

/-- `FreshAmended` holds at every step along a run. -/
def FreshAlong [DecidableEq α] (T : Traits α) (hs : List (Option (unique_handle α))) :
    List (Op α) → Prop
  | [] => True
  | op :: ops => FreshAmended T hs op ∧ FreshAlong T (step T hs op).1 ops

end SmartClassesExamples

namespace KennyKerr

/-- The `Traits` template parameter of `unique_handle` in
`CppSqlite/unique_handle.h`: supplies the pointer type and the sentinel
returned by `Traits::Invalid()`.  `Traits::Close` is modelled by traces. -/
structure Traits (α : Type) where
  Invalid : α
deriving DecidableEq

/-- The state of a `KennyKerr::unique_handle<Traits>` object: its single
data member `m_value`. -/
structure unique_handle (α : Type) where
  m_value : α
deriving DecidableEq

variable {α : Type}

/-- The C++ `explicit operator bool()`: `m_value != Traits::Invalid()`. -/
def operator_bool [DecidableEq α] (T : Traits α) (h : unique_handle α) : Bool :=
  decide (h.m_value ≠ T.Invalid)

/-- The C++ `get()` member: returns `m_value`. -/
def get (h : unique_handle α) : α :=
  h.m_value

/-- The private helper `Close()`: `if (*this) Traits::Close(m_value)`.  The
result is the trace of arguments passed to `Traits::Close`. -/
def Close [DecidableEq α] (T : Traits α) (h : unique_handle α) : List α :=
  if operator_bool T h then [h.m_value] else []

/-- The explicit constructor `unique_handle(pointer value = Traits::Invalid())`. -/
def mk (value : α) : unique_handle α × List α :=
  (⟨value⟩, [])

/-- The default-argument form of the constructor. -/
def mkDefault (T : Traits α) : unique_handle α × List α :=
  mk T.Invalid

/-- The destructor `~unique_handle()`: calls `Close()`. -/
def destruct [DecidableEq α] (T : Traits α) (h : unique_handle α) : List α :=
  Close T h

/-- The condition asserted by `get_address_of()`: `ASSERT(!*this)`.  The
member then returns `&m_value`; addresses are not part of the value-level
model, so only the asserted condition is embedded. -/
def get_address_of_assert [DecidableEq α] (T : Traits α) (h : unique_handle α) : Bool :=
  !(operator_bool T h)

/-- The C++ `release()`: result, new state, trace of `Traits::Close` calls. -/
def release (T : Traits α) (h : unique_handle α) : α × unique_handle α × List α :=
  (h.m_value, ⟨T.Invalid⟩, [])

/-- The C++ `reset(pointer value = Traits::Invalid())`: result, new state,
trace. -/
def reset [DecidableEq α] (T : Traits α) (h : unique_handle α) (value : α) :
    Bool × unique_handle α × List α :=
  if h.m_value ≠ value then
    (operator_bool T ⟨value⟩, ⟨value⟩, Close T h)
  else
    (operator_bool T h, h, [])

/-- The move constructor: `m_value { other.release() }`. -/
def moveCtor (T : Traits α) (other : unique_handle α) :
    unique_handle α × unique_handle α × List α :=
  let r := release T other
  (⟨r.1⟩, r.2.1, r.2.2)

/-- The move assignment in the case `this != &other`: `reset(other.release())`. -/
def moveAssignD [DecidableEq α] (T : Traits α) (dst src : unique_handle α) :
    unique_handle α × unique_handle α × List α :=
  let r := release T src
  let s := reset T dst r.1
  (s.2.1, r.2.1, r.2.2 ++ s.2.2)

/-- The member `swap`: `std::swap(m_value, other.m_value)`. -/
def swapH (a b : unique_handle α) : unique_handle α × unique_handle α × List α :=
  (⟨b.m_value⟩, ⟨a.m_value⟩, [])

/-- One step of a program over a collection of `KennyKerr::unique_handle`
objects, mirroring `SmartClassesExamples.step` but built from the
`KennyKerr` member functions. -/
def step [DecidableEq α] (T : Traits α) (hs : List (Option (unique_handle α))) :
    SmartClassesExamples.Op α → List (Option (unique_handle α)) × List α
  | .constructValue v => (hs ++ [some (mk v).1], (mk v).2)
  | .moveConstructOp j =>
    match hs[j]? with
    | some (some hj) =>
      let r := moveCtor T hj
      (hs.set j (some r.2.1) ++ [some r.1], r.2.2)
    | _ => (hs, [])
  | .moveAssignOp i j =>
    if i = j then (hs, [])
    else
      match hs[i]?, hs[j]? with
      | some (some hi), some (some hj) =>
        let r := moveAssignD T hi hj
        ((hs.set j (some r.2.1)).set i (some r.1), r.2.2)
      | _, _ => (hs, [])
  | .resetOp i v =>
    match hs[i]? with
    | some (some hi) =>
      let r := reset T hi v
      (hs.set i (some r.2.1), r.2.2)
    | _ => (hs, [])
  | .releaseOp i =>
    match hs[i]? with
    | some (some hi) =>
      let r := release T hi
      (hs.set i (some r.2.1), r.2.2)
    | _ => (hs, [])
  | .swapOp i j =>
    if i = j then (hs, [])
    else
      match hs[i]?, hs[j]? with
      | some (some hi), some (some hj) =>
        let r := swapH hi hj
        ((hs.set i (some r.1)).set j (some r.2.1), r.2.2)
      | _, _ => (hs, [])
  | .destroyOp i =>
    match hs[i]? with
    | some (some hi) => (hs.set i none, destruct T hi)
    | _ => (hs, [])

/-- Runs a sequence of operations on `KennyKerr` handles. -/
def stepsTr [DecidableEq α] (T : Traits α) (hs : List (Option (unique_handle α))) :
    List (SmartClassesExamples.Op α) → List (Option (unique_handle α)) × List α
  | [] => (hs, [])
  | op :: ops =>
    let r := step T hs op
    let rest := stepsTr T r.1 ops
    (rest.1, r.2 ++ rest.2)

end KennyKerr

/-- Translation of a `SmartClassesExamples` traits record into the
`KennyKerr` one with the same sentinel. -/
def trT {α : Type} (T : SmartClassesExamples.Traits α) : KennyKerr.Traits α :=
  ⟨T.invalid⟩

/-- Translation of a `SmartClassesExamples` handle state into the
`KennyKerr` one holding the same value. -/
def trH {α : Type} (h : SmartClassesExamples.unique_handle α) : KennyKerr.unique_handle α :=
  ⟨h.m_value⟩

namespace SmartClassesExamples

variable {α : Type}

/-- Indexing a singleton list: a successful lookup returns the element and
forces the index to be zero. -/
theorem single_getElem_aux {β : Type} (x : β) (m : Nat) (y : β)
    (h : [x][m]? = some y) : m = 0 ∧ x = y := by
  match m with
  | 0 => simpa using h
  | m + 1 => simp at h

/-- The state produced by `reset` always stores the requested value. -/
theorem reset_state [DecidableEq α] (T : Traits α) (h : unique_handle α) (v : α) :
    (reset T h v).2.1 = ⟨v⟩ := by
  unfold reset
  split
  · rfl
  · rename_i hnv
    have hv : h.m_value = v := not_not.mp hnv
    cases h
    simp_all

/-- Setting a slot to a handle whose value is fresh (held by no other live
slot) or the sentinel preserves ownership uniqueness. -/
theorem uniqOwn_set_value [DecidableEq α] (T : Traits α)
    (hs : List (Option (unique_handle α))) (k : Nat) (v : α)
    (hU : UniqOwn T hs)
    (hfresh : v = T.invalid ∨ ∀ (j : Nat) (a : unique_handle α),
      j ≠ k → hs[j]? = some (some a) → a.m_value ≠ v) :
    UniqOwn T (hs.set k (some ⟨v⟩)) := by
  intro i j a b hij hi hj ha
  rw [List.getElem?_set] at hi hj
  by_cases hki : k = i
  · rw [if_pos hki] at hi
    by_cases hkl : k < hs.length
    · rw [if_pos hkl] at hi
      have hav : a = ⟨v⟩ := by
        have h2 := Option.some.inj hi
        exact (Option.some.inj h2).symm
      have hkj : ¬ k = j := fun h => hij (hki ▸ h)
      rw [if_neg hkj] at hj
      rcases hfresh with hv | hf
      · exact absurd (by rw [hav, hv]) ha
      · have hbv := hf j b (fun h => hkj h.symm) hj
        rw [hav]
        exact fun h => hbv (h.symm)
    · rw [if_neg hkl] at hi
      exact absurd hi (by simp)
  · rw [if_neg hki] at hi
    by_cases hkj : k = j
    · rw [if_pos hkj] at hj
      by_cases hkl : k < hs.length
      · rw [if_pos hkl] at hj
        have hbv : b = ⟨v⟩ := by
          have h2 := Option.some.inj hj
          exact (Option.some.inj h2).symm
        rcases hfresh with hv | hf
        · rw [hbv, hv]
          exact ha
        · rw [hbv]
          exact hf i a (fun h => hki h.symm) hi
      · rw [if_neg hkl] at hj
        exact absurd hj (by simp)
    · rw [if_neg hkj] at hj
      exact hU i j a b hij hi hj ha

/-- Destroying a slot (setting it to `none`) preserves ownership
uniqueness. -/
theorem uniqOwn_set_none [DecidableEq α] (T : Traits α)
    (hs : List (Option (unique_handle α))) (k : Nat)
    (hU : UniqOwn T hs) :
    UniqOwn T (hs.set k none) := by
  intro i j a b hij hi hj ha
  rw [List.getElem?_set] at hi hj
  by_cases hki : k = i
  · rw [if_pos hki] at hi
    by_cases hkl : k < hs.length
    · rw [if_pos hkl] at hi
      exact absurd (Option.some.inj hi) (by simp)
    · rw [if_neg hkl] at hi
      exact absurd hi (by simp)
  · rw [if_neg hki] at hi
    by_cases hkj : k = j
    · rw [if_pos hkj] at hj
      by_cases hkl : k < hs.length
      · rw [if_pos hkl] at hj
        exact absurd (Option.some.inj hj) (by simp)
      · rw [if_neg hkl] at hj
        exact absurd hj (by simp)
    · rw [if_neg hkj] at hj
      exact hU i j a b hij hi hj ha

/-- Appending a new handle whose value is fresh or the sentinel preserves
ownership uniqueness. -/
theorem uniqOwn_append_value [DecidableEq α] (T : Traits α)
    (hs : List (Option (unique_handle α))) (v : α)
    (hU : UniqOwn T hs)
    (hfresh : v = T.invalid ∨ ∀ (j : Nat) (a : unique_handle α),
      hs[j]? = some (some a) → a.m_value ≠ v) :
    UniqOwn T (hs ++ [some ⟨v⟩]) := by
  intro i j a b hij hi hj ha
  rw [List.getElem?_append] at hi hj
  by_cases hil : i < hs.length
  · rw [if_pos hil] at hi
    by_cases hjl : j < hs.length
    · rw [if_pos hjl] at hj
      exact hU i j a b hij hi hj ha
    · rw [if_neg hjl] at hj
      have hbv : b = ⟨v⟩ := (Option.some.inj (single_getElem_aux _ _ _ hj).2).symm
      rcases hfresh with hv | hf
      · rw [hbv, hv]
        exact ha
      · rw [hbv]
        exact hf i a hi
  · rw [if_neg hil] at hi
    have hav : a = ⟨v⟩ := (Option.some.inj (single_getElem_aux _ _ _ hi).2).symm
    by_cases hjl : j < hs.length
    · rw [if_pos hjl] at hj
      rcases hfresh with hv | hf
      · exact absurd (by rw [hav, hv]) ha
      · have hbv := hf j b hj
        rw [hav]
        exact fun h => hbv h.symm
    · rw [if_neg hjl] at hj
      have hie : i - hs.length = 0 := (single_getElem_aux _ _ _ hi).1
      have hje : j - hs.length = 0 := (single_getElem_aux _ _ _ hj).1
      exact absurd (by omega : i = j) hij

/-- Exchanging the values of two live slots preserves ownership
uniqueness. -/
theorem uniqOwn_swap_set [DecidableEq α] (T : Traits α)
    (hs : List (Option (unique_handle α))) (i0 j0 : Nat)
    (x y : unique_handle α) (hne : i0 ≠ j0)
    (hx : hs[i0]? = some (some x)) (hy : hs[j0]? = some (some y))
    (hU : UniqOwn T hs) :
    UniqOwn T ((hs.set i0 (some ⟨y.m_value⟩)).set j0 (some ⟨x.m_value⟩)) := by
  have hi0l : i0 < hs.length := (List.getElem?_eq_some.mp hx).1
  have hj0l : j0 < hs.length := (List.getElem?_eq_some.mp hy).1
  have key : ∀ (m : Nat) (c : unique_handle α),
      ((hs.set i0 (some ⟨y.m_value⟩)).set j0 (some ⟨x.m_value⟩))[m]? = some (some c) →
      (m = j0 ∧ c.m_value = x.m_value) ∨ (m = i0 ∧ c.m_value = y.m_value) ∨
      (m ≠ i0 ∧ m ≠ j0 ∧ hs[m]? = some (some c)) := by
    intro m c h
    rw [List.getElem?_set, List.length_set, List.getElem?_set] at h
    by_cases h1 : j0 = m
    · rw [if_pos h1, if_pos (h1 ▸ hj0l)] at h
      have hc : c = ⟨x.m_value⟩ := Option.some.inj (Option.some.inj h).symm
      exact Or.inl ⟨h1.symm, by rw [hc]⟩
    · rw [if_neg h1] at h
      by_cases h2 : i0 = m
      · rw [if_pos h2, if_pos (h2 ▸ hi0l)] at h
        have hc : c = ⟨y.m_value⟩ := Option.some.inj (Option.some.inj h).symm
        exact Or.inr (Or.inl ⟨h2.symm, by rw [hc]⟩)
      · rw [if_neg h2] at h
        exact Or.inr (Or.inr ⟨fun hc => h2 hc.symm, fun hc => h1 hc.symm, h⟩)
  intro i j a b hij hi hj ha
  rcases key i a hi with ⟨hie, hav⟩ | ⟨hie, hav⟩ | ⟨hii0, hij0, hio⟩
  · rcases key j b hj with ⟨hje, hbv⟩ | ⟨hje, hbv⟩ | ⟨hji0, hjj0, hjo⟩
    · exact absurd (hie.trans hje.symm) hij
    · rw [hav, hbv]
      exact hU i0 j0 x y hne hx hy (hav ▸ ha)
    · rw [hav]
      exact hU i0 j x b (fun h => hji0 h.symm) hx hjo (hav ▸ ha)
  · rcases key j b hj with ⟨hje, hbv⟩ | ⟨hje, hbv⟩ | ⟨hji0, hjj0, hjo⟩
    · rw [hav, hbv]
      exact hU j0 i0 y x hne.symm hy hx (hav ▸ ha)
    · exact absurd (hie.trans hje.symm) hij
    · rw [hav]
      exact hU j0 j y b (fun h => hjj0 h.symm) hy hjo (hav ▸ ha)
  · rcases key j b hj with ⟨hje, hbv⟩ | ⟨hje, hbv⟩ | ⟨hji0, hjj0, hjo⟩
    · rw [hbv]
      exact hU i i0 a x hii0 hio hx ha
    · rw [hbv]
      exact hU i j0 a y hij0 hio hy ha
    · exact hU i j a b hij hio hjo ha

/-- A collection in which every live handle holds the sentinel trivially
satisfies ownership uniqueness. -/
theorem allSentinel_uniqOwn [DecidableEq α] (T : Traits α)
    (hs : List (Option (unique_handle α))) (h0 : AllSentinel T hs) :
    UniqOwn T hs := by
  intro i j a b hij hi hj ha
  exact absurd (h0 i a hi) ha

/-- One step of any operation, under the amended freshness side condition,
preserves ownership uniqueness. -/
theorem step_preserves [DecidableEq α] (T : Traits α)
    (hs : List (Option (unique_handle α))) (op : Op α)
    (hU : UniqOwn T hs) (hF : FreshAmended T hs op) :
    UniqOwn T (step T hs op).1 := by
  cases op with
  | constructValue v =>
    exact uniqOwn_append_value T hs v hU hF
  | moveConstructOp j =>
    rcases hj : hs[j]? with _ | (_ | hjh)
    · simpa [step, hj] using hU
    · simpa [step, hj] using hU
    · have hstep : (step T hs (Op.moveConstructOp j)).1 =
          hs.set j (some ⟨T.invalid⟩) ++ [some ⟨hjh.m_value⟩] := by
        simp [step, hj, moveCtor, release]
      rw [hstep]
      apply uniqOwn_append_value
      · exact uniqOwn_set_value T hs j T.invalid hU (Or.inl rfl)
      · by_cases hv : hjh.m_value = T.invalid
        · exact Or.inl hv
        · refine Or.inr ?_
          intro k a hk
          rw [List.getElem?_set] at hk
          by_cases hjk : j = k
          · rw [if_pos hjk, if_pos (hjk ▸ (List.getElem?_eq_some.mp hj).1)] at hk
            have hak : a = ⟨T.invalid⟩ := (Option.some.inj (Option.some.inj hk)).symm
            rw [hak]
            exact fun h => hv h.symm
          · rw [if_neg hjk] at hk
            have := hU j k hjh a hjk hj hk hv
            exact fun h => this h.symm
  | moveAssignOp i j =>
    by_cases hij : i = j
    · simpa [step, hij] using hU
    · rcases hi : hs[i]? with _ | (_ | hih)
      · simpa [step, hij, hi] using hU
      · simpa [step, hij, hi] using hU
      · rcases hj : hs[j]? with _ | (_ | hjh)
        · simpa [step, hij, hi, hj] using hU
        · simpa [step, hij, hi, hj] using hU
        · have hstep : (step T hs (Op.moveAssignOp i j)).1 =
              (hs.set j (some ⟨T.invalid⟩)).set i (some ⟨hjh.m_value⟩) := by
            simp [step, hij, hi, hj, moveAssignD, release, reset_state]
          rw [hstep]
          apply uniqOwn_set_value
          · exact uniqOwn_set_value T hs j T.invalid hU (Or.inl rfl)
          · by_cases hv : hjh.m_value = T.invalid
            · exact Or.inl hv
            · refine Or.inr ?_
              intro k a hki hk
              rw [List.getElem?_set] at hk
              by_cases hjk : j = k
              · rw [if_pos hjk, if_pos (hjk ▸ (List.getElem?_eq_some.mp hj).1)] at hk
                have hak : a = ⟨T.invalid⟩ := (Option.some.inj (Option.some.inj hk)).symm
                rw [hak]
                exact fun h => hv h.symm
              · rw [if_neg hjk] at hk
                have := hU j k hjh a hjk hj hk hv
                exact fun h => this h.symm
  | resetOp i v =>
    rcases hi : hs[i]? with _ | (_ | hih)
    · simpa [step, hi] using hU
    · simpa [step, hi] using hU
    · have hstep : (step T hs (Op.resetOp i v)).1 = hs.set i (some ⟨v⟩) := by
        simp [step, hi, reset_state]
      rw [hstep]
      exact uniqOwn_set_value T hs i v hU hF
  | releaseOp i =>
    rcases hi : hs[i]? with _ | (_ | hih)
    · simpa [step, hi] using hU
    · simpa [step, hi] using hU
    · have hstep : (step T hs (Op.releaseOp i)).1 = hs.set i (some ⟨T.invalid⟩) := by
        simp [step, hi, release]
      rw [hstep]
      exact uniqOwn_set_value T hs i T.invalid hU (Or.inl rfl)
  | swapOp i j =>
    by_cases hij : i = j
    · simpa [step, hij] using hU
    · rcases hi : hs[i]? with _ | (_ | hih)
      · simpa [step, hij, hi] using hU
      · simpa [step, hij, hi] using hU
      · rcases hj : hs[j]? with _ | (_ | hjh)
        · simpa [step, hij, hi, hj] using hU
        · simpa [step, hij, hi, hj] using hU
        · have hstep : (step T hs (Op.swapOp i j)).1 =
              (hs.set i (some ⟨hjh.m_value⟩)).set j (some ⟨hih.m_value⟩) := by
            simp [step, hij, hi, hj, swapH]
          rw [hstep]
          exact uniqOwn_swap_set T hs i j hih hjh hij hi hj hU
  | destroyOp i =>
    rcases hi : hs[i]? with _ | (_ | hih)
    · simpa [step, hi] using hU
    · simpa [step, hi] using hU
    · have hstep : (step T hs (Op.destroyOp i)).1 = hs.set i none := by
        simp [step, hi]
      rw [hstep]
      exact uniqOwn_set_none T hs i hU

/-- Running any sequence of operations under the amended freshness side
condition preserves ownership uniqueness. -/
theorem stepsTr_preserves [DecidableEq α] (T : Traits α)
    (hs : List (Option (unique_handle α))) (ops : List (Op α))
    (hU : UniqOwn T hs) (hFA : FreshAlong T hs ops) :
    UniqOwn T (stepsTr T hs ops).1 := by
  induction ops generalizing hs with
  | nil => exact hU
  | cons op ops ih =>
    exact ih _ (step_preserves T hs op hU hFA.1) hFA.2

/-- C1: destroying a handle whose held value is not the sentinel invokes the
traits release operation (`Traits::close`) exactly once, with that held
value; destroying a handle whose held value equals the sentinel invokes it
zero times. -/
theorem C1_destruct_release_count [DecidableEq α] (T : Traits α) (h : unique_handle α) :
    (h.m_value ≠ T.invalid → destruct T h = [h.m_value]) ∧
    (h.m_value = T.invalid → destruct T h = []) := by
  constructor
  · intro hv
    simp [destruct, close, operator_bool, hv]
  · intro hv
    simp [destruct, close, operator_bool, hv]

/-- Witness for C1 at the sentinel 0: destroying a handle holding 5 closes
exactly 5 once; destroying a handle holding the sentinel closes nothing. -/
theorem C1_destruct_release_count_witness :
    destruct (⟨0⟩ : Traits ℕ) ⟨5⟩ = [5] ∧ destruct (⟨0⟩ : Traits ℕ) ⟨0⟩ = [] :=
  ⟨(C1_destruct_release_count ⟨0⟩ ⟨5⟩).1 (by decide),
   (C1_destruct_release_count ⟨0⟩ ⟨0⟩).2 rfl⟩

/-- C2: `reset v` on a handle holding `v1 ≠ v` closes `v1` exactly once when
`v1` is not the sentinel (zero times when it is) and then holds `v`;
`reset v` with `v = v1` closes nothing and leaves the handle unchanged; the
returned boolean is true iff the post-reset value differs from the sentinel;
and two consecutive no-argument resets on a sentinel-holding handle close
nothing on either call. -/
theorem C2_reset_spec [DecidableEq α] (T : Traits α) (h : unique_handle α) (v : α) :
    (h.m_value ≠ v →
      (reset T h v).2.2 = (if h.m_value ≠ T.invalid then [h.m_value] else []) ∧
      (reset T h v).2.1.m_value = v) ∧
    (h.m_value = v → (reset T h v).2.2 = [] ∧ (reset T h v).2.1 = h) ∧
    ((reset T h v).1 = true ↔ (reset T h v).2.1.m_value ≠ T.invalid) ∧
    (h.m_value = T.invalid →
      (reset T h T.invalid).2.2 = [] ∧
      (reset T (reset T h T.invalid).2.1 T.invalid).2.2 = []) := by
  refine ⟨?_, ?_, ?_, ?_⟩
  · intro hv
    constructor
    · simp [reset, hv, close, operator_bool]
    · simp [reset, hv]
  · intro hv
    simp [reset, hv]
  · by_cases hv : h.m_value = v
    · simp [reset, hv, operator_bool]
    · simp [reset, hv, operator_bool]
  · intro hv
    simp [reset, hv]

/-- Witness for C2 at the sentinel 0: resetting a handle holding 5 to 7
closes 5 and then holds 7; resetting it to its own value 5 closes nothing;
resetting a sentinel-holding handle to the sentinel closes nothing. -/
theorem C2_reset_spec_witness :
    (reset (⟨0⟩ : Traits ℕ) ⟨5⟩ 7).2.2 = [5] ∧
    (reset (⟨0⟩ : Traits ℕ) ⟨5⟩ 7).2.1.m_value = 7 ∧
    (reset (⟨0⟩ : Traits ℕ) ⟨5⟩ 5).2.2 = [] ∧
    (reset (⟨0⟩ : Traits ℕ) ⟨0⟩ 0).2.2 = [] := by
  have h1 := (C2_reset_spec (⟨0⟩ : Traits ℕ) ⟨5⟩ 7).1 (by decide)
  have h2 := (C2_reset_spec (⟨0⟩ : Traits ℕ) ⟨5⟩ 5).2.1 rfl
  have h3 := (C2_reset_spec (⟨0⟩ : Traits ℕ) ⟨0⟩ 0).2.2.2 rfl
  exact ⟨by simpa using h1.1, h1.2, h2.1, h3.1⟩

/-- C5: `release` returns exactly the value `get` would have returned
immediately before the call, leaves the handle holding the sentinel (so the
boolean conversion is false), and invokes the traits release operation zero
times. -/
theorem C5_release_spec [DecidableEq α] (T : Traits α) (h : unique_handle α) :
    (release T h).1 = get h ∧
    operator_bool T (release T h).2.1 = false ∧
    (release T h).2.2 = [] := by
  refine ⟨rfl, ?_, rfl⟩
  simp [release, operator_bool]

/-- C6: a handle constructed with no explicit value is invalid; a handle
constructed with a non-sentinel value `v` is valid and `get` returns `v`;
construction invokes the traits release operation zero times (and `get`,
being `const`, is embedded as a pure projection that can change nothing). -/
theorem C6_construct_spec [DecidableEq α] (T : Traits α) :
    operator_bool T (mkDefault T).1 = false ∧ (mkDefault T).2 = [] ∧
    (∀ v : α, get (mk v : unique_handle α × List α).1 = v) ∧
    ∀ v : α, v ≠ T.invalid →
      operator_bool T (mk v : unique_handle α × List α).1 = true ∧
      (mk v : unique_handle α × List α).2 = [] := by
  refine ⟨by simp [mkDefault, mk, operator_bool], rfl, fun v => rfl, ?_⟩
  intro v hv
  exact ⟨by simp [mk, operator_bool, hv], rfl⟩

/-- Witness for C6 at the sentinel 0 and value 5. -/
theorem C6_construct_spec_witness :
    operator_bool (⟨0⟩ : Traits ℕ) (mkDefault (⟨0⟩ : Traits ℕ)).1 = false ∧
    get (mk 5 : unique_handle ℕ × List ℕ).1 = 5 ∧
    operator_bool (⟨0⟩ : Traits ℕ) (mk 5 : unique_handle ℕ × List ℕ).1 = true := by
  have h := C6_construct_spec (⟨0⟩ : Traits ℕ)
  exact ⟨h.1, h.2.2.1 5, (h.2.2.2 5 (by decide)).1⟩

/-- C7: swapping two handles exchanges exactly their two held values, with
zero traits release calls, and no other slot of a collection changes. -/
theorem C7_swap_spec [DecidableEq α] (T : Traits α) (a b : unique_handle α)
    (hs : List (Option (unique_handle α))) (i j : Nat) :
    swapH a b = (⟨b.m_value⟩, ⟨a.m_value⟩, []) ∧
    swapNM a b = swapH a b ∧
    (∀ k, k ≠ i → k ≠ j → ((step T hs (Op.swapOp i j)).1)[k]? = hs[k]?) ∧
    (step T hs (Op.swapOp i j)).2 = [] := by
  refine ⟨rfl, rfl, ?_, ?_⟩
  · intro k hki hkj
    by_cases hij : i = j
    · simp [step, hij]
    · rcases hi : hs[i]? with _ | (_ | hih)
      · simp [step, hij, hi]
      · simp [step, hij, hi]
      · rcases hj : hs[j]? with _ | (_ | hjh)
        · simp [step, hij, hi, hj]
        · simp [step, hij, hi, hj]
        · have hstep : (step T hs (Op.swapOp i j)).1 =
              (hs.set i (some ⟨hjh.m_value⟩)).set j (some ⟨hih.m_value⟩) := by
            simp [step, hij, hi, hj, swapH]
          rw [hstep, List.getElem?_set_ne (fun h => hkj h.symm),
            List.getElem?_set_ne (fun h => hki h.symm)]
  · by_cases hij : i = j
    · simp [step, hij]
    · rcases hi : hs[i]? with _ | (_ | hih)
      · simp [step, hij, hi]
      · simp [step, hij, hi]
      · rcases hj : hs[j]? with _ | (_ | hjh)
        · simp [step, hij, hi, hj]
        · simp [step, hij, hi, hj]
        · simp [step, hij, hi, hj, swapH]

/-- Witness for C7 on a three-slot collection: swapping slots 0 and 1
leaves slot 2 untouched and closes nothing. -/
theorem C7_swap_spec_witness :
    swapH (⟨5⟩ : unique_handle ℕ) ⟨7⟩ = (⟨7⟩, ⟨5⟩, []) ∧
    ((step (⟨0⟩ : Traits ℕ) [some ⟨1⟩, some ⟨2⟩, some ⟨3⟩] (Op.swapOp 0 1)).1)[2]? =
      ([some ⟨1⟩, some ⟨2⟩, some ⟨3⟩] :
        List (Option (unique_handle ℕ)))[2]? ∧
    (step (⟨0⟩ : Traits ℕ) [some ⟨1⟩, some ⟨2⟩, some ⟨3⟩] (Op.swapOp 0 1)).2 = [] := by
  have h := C7_swap_spec (⟨0⟩ : Traits ℕ) (⟨5⟩ : unique_handle ℕ) ⟨7⟩
    [some ⟨1⟩, some ⟨2⟩, some ⟨3⟩] 0 1
  exact ⟨h.1, h.2.2.1 2 (by decide) (by decide), h.2.2.2⟩

/-- C10: self-move-assignment is a no-op in both implementations: the
`this != &other` test (an index comparison in the collection model) makes
the whole collection, and in particular the handle's held value and
validity, unchanged, with zero traits release calls. -/
theorem C10_self_move_assign [DecidableEq α] (T : Traits α)
    (KT : KennyKerr.Traits α)
    (hs : List (Option (unique_handle α)))
    (ks : List (Option (KennyKerr.unique_handle α))) (i : Nat) :
    step T hs (Op.moveAssignOp i i) = (hs, []) ∧
    KennyKerr.step KT ks (Op.moveAssignOp i i) = (ks, []) := by
  constructor
  · simp [step]
  · simp [KennyKerr.step]

/-- C3 counterexample: with sentinel 0, moving a handle holding 5 into a
handle holding 7 by move assignment invokes the traits release operation
once (on 7), not zero times. -/
theorem C3_move_zero_release_counterexample :
    (moveAssignD (⟨0⟩ : Traits ℕ) ⟨7⟩ ⟨5⟩).2.2 = [7] ∧
    (moveAssignD (⟨0⟩ : Traits ℕ) ⟨7⟩ ⟨5⟩).2.2 ≠ [] := by
  decide

/-- C3 (amended): after moving A into B (move construction or move
assignment) A holds the sentinel and B holds A's pre-move value; move
construction invokes the traits release operation zero times, and move
assignment invokes it exactly once, on B's pre-move value, when that value
is both non-sentinel and different from A's value, and zero times
otherwise. -/
theorem C3_move_spec_amended [DecidableEq α] (T : Traits α) (a b : unique_handle α) :
    (moveCtor T a).1.m_value = a.m_value ∧
    (moveCtor T a).2.1.m_value = T.invalid ∧
    (moveCtor T a).2.2 = [] ∧
    (moveAssignD T b a).1.m_value = a.m_value ∧
    (moveAssignD T b a).2.1.m_value = T.invalid ∧
    (moveAssignD T b a).2.2 =
      (if b.m_value ≠ a.m_value ∧ b.m_value ≠ T.invalid then [b.m_value] else []) := by
  refine ⟨rfl, rfl, rfl, ?_, rfl, ?_⟩
  · by_cases hv : b.m_value = a.m_value
    · simp [moveAssignD, release, reset, hv]
    · simp [moveAssignD, release, reset, hv]
  · by_cases hv : b.m_value = a.m_value
    · simp [moveAssignD, release, reset, hv]
    · by_cases hinv : b.m_value = T.invalid
      · simp [moveAssignD, release, reset, close, operator_bool, hv, hinv]
        split <;> rfl
      · simp [moveAssignD, release, reset, close, operator_bool, hv, hinv]

/-- C4 counterexample: with sentinel 0, starting from two handles each
holding the sentinel, the sequence `reset 0 5; reset 1 5` satisfies the
claim's freshness side condition (which constrains only
construct-with-value), yet leaves two live handles both holding the
non-sentinel value 5: ownership uniqueness fails. -/
theorem C4_uniq_ownership_counterexample :
    AllSentinel (⟨0⟩ : Traits ℕ) [some ⟨0⟩, some ⟨0⟩] ∧
    FreshAlongOrig (⟨0⟩ : Traits ℕ) [some ⟨0⟩, some ⟨0⟩]
      [Op.resetOp 0 5, Op.resetOp 1 5] ∧
    ¬ UniqOwn (⟨0⟩ : Traits ℕ)
      (stepsTr (⟨0⟩ : Traits ℕ) [some ⟨0⟩, some ⟨0⟩]
        [Op.resetOp 0 5, Op.resetOp 1 5]).1 := by
  refine ⟨?_, ⟨trivial, trivial, trivial⟩, ?_⟩
  · intro i a h
    match i with
    | 0 =>
      injection h with h1
      injection h1 with h2
      rw [← h2]
    | 1 =>
      injection h with h1
      injection h1 with h2
      rw [← h2]
    | n + 2 => simp at h
  · intro hU
    have h5 := hU 0 1 ⟨5⟩ ⟨5⟩ (by decide) (by decide) (by decide) (by decide)
    exact h5 rfl

/-- C4 (amended): starting from any collection of handles each holding the
sentinel, after any sequence of the operations in which every non-sentinel
identifier supplied from outside — to construct-with-value or to reset — is
fresh, at most one live handle holds any given non-sentinel identifier. -/
theorem C4_uniq_ownership_amended [DecidableEq α] (T : Traits α)
    (hs : List (Option (unique_handle α))) (ops : List (Op α))
    (h0 : AllSentinel T hs) (hF : FreshAlong T hs ops) :
    UniqOwn T (stepsTr T hs ops).1 :=
  stepsTr_preserves T hs ops (allSentinel_uniqOwn T hs h0) hF

/-- Witness for C4 (amended): from two sentinel handles, reset slot 0 to the
fresh value 5, move-assign it into slot 1, then destroy slot 1; ownership
uniqueness holds afterwards. -/
theorem C4_uniq_ownership_amended_witness :
    UniqOwn (⟨0⟩ : Traits ℕ)
      (stepsTr (⟨0⟩ : Traits ℕ) [some ⟨0⟩, some ⟨0⟩]
        [Op.resetOp 0 5, Op.moveAssignOp 1 0, Op.destroyOp 1]).1 := by
  apply C4_uniq_ownership_amended
  · intro i a h
    match i with
    | 0 =>
      injection h with h1
      injection h1 with h2
      rw [← h2]
    | 1 =>
      injection h with h1
      injection h1 with h2
      rw [← h2]
    | n + 2 => simp at h
  · refine ⟨Or.inr ?_, trivial, trivial, trivial⟩
    intro j a hj h
    match j with
    | 0 => exact absurd rfl hj
    | 1 =>
      injection h with h1
      injection h1 with h2
      rw [← h2]
      decide
    | n + 2 => simp at h

end SmartClassesExamples

/-- The two implementations agree on `reset` (results, state, trace), up to
the value-preserving translation of states and traits. -/
theorem reset_eq_impls {α : Type} [DecidableEq α] (T : SmartClassesExamples.Traits α)
    (h : SmartClassesExamples.unique_handle α) (v : α) :
    KennyKerr.reset (trT T) (trH h) v =
      ((SmartClassesExamples.reset T h v).1,
        trH (SmartClassesExamples.reset T h v).2.1,
        (SmartClassesExamples.reset T h v).2.2) := by
  by_cases hv : h.m_value = v
  · simp [KennyKerr.reset, SmartClassesExamples.reset, KennyKerr.operator_bool,
      SmartClassesExamples.operator_bool, trH, trT, hv]
  · simp [KennyKerr.reset, SmartClassesExamples.reset, KennyKerr.Close,
      SmartClassesExamples.close, KennyKerr.operator_bool,
      SmartClassesExamples.operator_bool, trH, trT, hv]

/-- The two implementations agree on move assignment between distinct
handles, up to the value-preserving translation. -/
theorem moveAssignD_eq_impls {α : Type} [DecidableEq α] (T : SmartClassesExamples.Traits α)
    (d s : SmartClassesExamples.unique_handle α) :
    KennyKerr.moveAssignD (trT T) (trH d) (trH s) =
      (trH (SmartClassesExamples.moveAssignD T d s).1,
        trH (SmartClassesExamples.moveAssignD T d s).2.1,
        (SmartClassesExamples.moveAssignD T d s).2.2) := by
  have hr := reset_eq_impls T d s.m_value
  simp only [KennyKerr.moveAssignD, SmartClassesExamples.moveAssignD,
    KennyKerr.release, SmartClassesExamples.release]
  simp only [trH] at hr ⊢
  rw [hr]
  simp [trT]

/-- One step of the operation language produces related collections and
identical traces in the two implementations. -/
theorem step_eq_impls {α : Type} [DecidableEq α] (T : SmartClassesExamples.Traits α)
    (hs : List (Option (SmartClassesExamples.unique_handle α)))
    (op : SmartClassesExamples.Op α) :
    KennyKerr.step (trT T) (hs.map (Option.map trH)) op =
      ((SmartClassesExamples.step T hs op).1.map (Option.map trH),
        (SmartClassesExamples.step T hs op).2) := by
  have hmap : ∀ (k : Nat), (hs.map (Option.map trH))[k]? = (hs[k]?).map (Option.map trH) := by
    intro k
    rw [List.getElem?_map]
  cases op with
  | constructValue v =>
    simp [KennyKerr.step, SmartClassesExamples.step, KennyKerr.mk,
      SmartClassesExamples.mk, trH]
  | moveConstructOp j =>
    rcases hj : hs[j]? with _ | (_ | x)
    · simp [KennyKerr.step, SmartClassesExamples.step, hmap j, hj]
    · simp [KennyKerr.step, SmartClassesExamples.step, hmap j, hj]
    · simp [KennyKerr.step, SmartClassesExamples.step, hmap j, hj,
        KennyKerr.moveCtor, SmartClassesExamples.moveCtor,
        KennyKerr.release, SmartClassesExamples.release, trT, trH,
        List.map_set, List.map_append]
  | moveAssignOp i j =>
    by_cases hij : i = j
    · simp [KennyKerr.step, SmartClassesExamples.step, hij]
    · rcases hi : hs[i]? with _ | (_ | x)
      · simp [KennyKerr.step, SmartClassesExamples.step, hij, hmap i, hi]
      · simp [KennyKerr.step, SmartClassesExamples.step, hij, hmap i, hi]
      · rcases hj : hs[j]? with _ | (_ | y)
        · simp [KennyKerr.step, SmartClassesExamples.step, hij, hmap i, hi, hmap j, hj]
        · simp [KennyKerr.step, SmartClassesExamples.step, hij, hmap i, hi, hmap j, hj]
        · simp [KennyKerr.step, SmartClassesExamples.step, hij, hmap i, hi, hmap j, hj,
            moveAssignD_eq_impls, List.map_set]
  | resetOp i v =>
    rcases hi : hs[i]? with _ | (_ | x)
    · simp [KennyKerr.step, SmartClassesExamples.step, hmap i, hi]
    · simp [KennyKerr.step, SmartClassesExamples.step, hmap i, hi]
    · simp [KennyKerr.step, SmartClassesExamples.step, hmap i, hi,
        reset_eq_impls, List.map_set]
  | releaseOp i =>
    rcases hi : hs[i]? with _ | (_ | x)
    · simp [KennyKerr.step, SmartClassesExamples.step, hmap i, hi]
    · simp [KennyKerr.step, SmartClassesExamples.step, hmap i, hi]
    · simp [KennyKerr.step, SmartClassesExamples.step, hmap i, hi,
        KennyKerr.release, SmartClassesExamples.release, trT, trH, List.map_set]
  | swapOp i j =>
    by_cases hij : i = j
    · simp [KennyKerr.step, SmartClassesExamples.step, hij]
    · rcases hi : hs[i]? with _ | (_ | x)
      · simp [KennyKerr.step, SmartClassesExamples.step, hij, hmap i, hi]
      · simp [KennyKerr.step, SmartClassesExamples.step, hij, hmap i, hi]
      · rcases hj : hs[j]? with _ | (_ | y)
        · simp [KennyKerr.step, SmartClassesExamples.step, hij, hmap i, hi, hmap j, hj]
        · simp [KennyKerr.step, SmartClassesExamples.step, hij, hmap i, hi, hmap j, hj]
        · simp [KennyKerr.step, SmartClassesExamples.step, hij, hmap i, hi, hmap j, hj,
            KennyKerr.swapH, SmartClassesExamples.swapH, trH, List.map_set]
  | destroyOp i =>
    rcases hi : hs[i]? with _ | (_ | x)
    · simp [KennyKerr.step, SmartClassesExamples.step, hmap i, hi]
    · simp [KennyKerr.step, SmartClassesExamples.step, hmap i, hi]
    · simp [KennyKerr.step, SmartClassesExamples.step, hmap i, hi,
        KennyKerr.destruct, SmartClassesExamples.destruct, KennyKerr.Close,
        SmartClassesExamples.close, KennyKerr.operator_bool,
        SmartClassesExamples.operator_bool, trT, trH, List.map_set]

/-- Whole runs of the operation language produce related collections and
identical traces in the two implementations. -/
theorem stepsTr_eq_impls {α : Type} [DecidableEq α] (T : SmartClassesExamples.Traits α)
    (hs : List (Option (SmartClassesExamples.unique_handle α)))
    (ops : List (SmartClassesExamples.Op α)) :
    KennyKerr.stepsTr (trT T) (hs.map (Option.map trH)) ops =
      ((SmartClassesExamples.stepsTr T hs ops).1.map (Option.map trH),
        (SmartClassesExamples.stepsTr T hs ops).2) := by
  induction ops generalizing hs with
  | nil => rfl
  | cons op ops ih =>
    show (KennyKerr.stepsTr (trT T) (hs.map (Option.map trH)) (op :: ops)) = _
    rw [KennyKerr.stepsTr, SmartClassesExamples.stepsTr]
    simp only [step_eq_impls T hs op]
    rw [ih]

/-- C8: the two `unique_handle` implementations (`SmartClasses.h` and
`CppSqlite/unique_handle.h`) are behaviorally equivalent: with the same
traits policy (same sentinel), every operation — construct, move-construct,
move-assign, destroy, bool conversion, get, release, reset, swap — and
every sequence of such operations yields the same held values, the same
results, and the same trace of traits release calls, up to the
value-preserving translation `trH` / `trT` between the two state types. -/
theorem C8_impl_equivalence {α : Type} [DecidableEq α] (T : SmartClassesExamples.Traits α) :
    (∀ h : SmartClassesExamples.unique_handle α,
      KennyKerr.operator_bool (trT T) (trH h) = SmartClassesExamples.operator_bool T h) ∧
    (∀ h : SmartClassesExamples.unique_handle α,
      KennyKerr.get (trH h) = SmartClassesExamples.get h) ∧
    (∀ v : α, (KennyKerr.mk v : KennyKerr.unique_handle α × List α) =
      (trH (SmartClassesExamples.mk v :
        SmartClassesExamples.unique_handle α × List α).1,
        (SmartClassesExamples.mk v :
          SmartClassesExamples.unique_handle α × List α).2)) ∧
    (KennyKerr.mkDefault (trT T) =
      (trH (SmartClassesExamples.mkDefault T).1, (SmartClassesExamples.mkDefault T).2)) ∧
    (∀ h : SmartClassesExamples.unique_handle α,
      KennyKerr.destruct (trT T) (trH h) = SmartClassesExamples.destruct T h) ∧
    (∀ h : SmartClassesExamples.unique_handle α,
      KennyKerr.release (trT T) (trH h) =
      ((SmartClassesExamples.release T h).1,
        trH (SmartClassesExamples.release T h).2.1,
        (SmartClassesExamples.release T h).2.2)) ∧
    (∀ (h : SmartClassesExamples.unique_handle α) (v : α),
      KennyKerr.reset (trT T) (trH h) v =
      ((SmartClassesExamples.reset T h v).1,
        trH (SmartClassesExamples.reset T h v).2.1,
        (SmartClassesExamples.reset T h v).2.2)) ∧
    (∀ h : SmartClassesExamples.unique_handle α,
      KennyKerr.moveCtor (trT T) (trH h) =
      (trH (SmartClassesExamples.moveCtor T h).1,
        trH (SmartClassesExamples.moveCtor T h).2.1,
        (SmartClassesExamples.moveCtor T h).2.2)) ∧
    (∀ d s : SmartClassesExamples.unique_handle α,
      KennyKerr.moveAssignD (trT T) (trH d) (trH s) =
      (trH (SmartClassesExamples.moveAssignD T d s).1,
        trH (SmartClassesExamples.moveAssignD T d s).2.1,
        (SmartClassesExamples.moveAssignD T d s).2.2)) ∧
    (∀ a b : SmartClassesExamples.unique_handle α,
      KennyKerr.swapH (trH a) (trH b) =
      (trH (SmartClassesExamples.swapH a b).1,
        trH (SmartClassesExamples.swapH a b).2.1,
        (SmartClassesExamples.swapH a b).2.2)) ∧
    (∀ (hs : List (Option (SmartClassesExamples.unique_handle α)))
      (ops : List (SmartClassesExamples.Op α)),
      KennyKerr.stepsTr (trT T) (hs.map (Option.map trH)) ops =
      ((SmartClassesExamples.stepsTr T hs ops).1.map (Option.map trH),
        (SmartClassesExamples.stepsTr T hs ops).2)) := by
  refine ⟨fun h => rfl, fun h => rfl, fun v => rfl, rfl, fun h => rfl, fun h => rfl,
    fun h v => reset_eq_impls T h v, fun h => rfl,
    fun d s => moveAssignD_eq_impls T d s, fun a b => rfl,
    fun hs ops => stepsTr_eq_impls T hs ops⟩

namespace KennyKerr

/-- C9: `get_address_of` asserts that the handle is not currently valid:
under the precondition that the boolean conversion is false the asserted
condition holds, and on a handle holding a non-sentinel value the asserted
condition is violated. -/
theorem C9_get_address_of_spec {α : Type} [DecidableEq α] (T : Traits α)
    (h : unique_handle α) :
    (operator_bool T h = false → get_address_of_assert T h = true) ∧
    (h.m_value ≠ T.Invalid → get_address_of_assert T h = false) := by
  constructor
  · intro hv
    simp [get_address_of_assert, hv]
  · intro hv
    simp [get_address_of_assert, operator_bool, hv]

/-- Witness for C9 at the sentinel 0: on an invalid handle the assertion
holds; on a handle holding 5 the assertion fails. -/
theorem C9_get_address_of_spec_witness :
    get_address_of_assert (⟨0⟩ : Traits ℕ) ⟨0⟩ = true ∧
    get_address_of_assert (⟨0⟩ : Traits ℕ) ⟨5⟩ = false :=
  ⟨(C9_get_address_of_spec ⟨0⟩ ⟨0⟩).1 (by decide),
   (C9_get_address_of_spec ⟨0⟩ ⟨5⟩).2 (by decide)⟩

end KennyKerr
